import Mathlib

/-!
A shallow embedding of the sparse-image codec, the fastboot protocol client
and the factory-flash requirement checker of fastboot.js
(src/sparse.ts, src/fastboot.ts, src/index.ts), together with theorems
checking the repository's specification against it.

Modelling conventions: bytes are `Nat` (each < 256 where it matters), byte
buffers are `List Nat`, strings handled character-wise are `List Char`,
JS numbers that can go negative (e.g. `splitSize - calcChunksSize(...)`,
`getUint32(8) - CHUNK_HEADER_SIZE`) are `Int`, and thrown exceptions are the
`.error` side of `Except`.
-/

namespace FastbootJs

/-! ## Sparse image codec (src/sparse.ts) -/

/-- JS `DataView.getUint16(i, true)` on a byte buffer (little endian). -/
def getUint16 (b : List Nat) (i : Nat) : Nat :=
  b.getD i 0 + 256 * b.getD (i + 1) 0

/-- JS `DataView.getUint32(i, true)` on a byte buffer (little endian). -/
def getUint32 (b : List Nat) (i : Nat) : Nat :=
  b.getD i 0 + 256 * b.getD (i + 1) 0 + 65536 * b.getD (i + 2) 0 +
    16777216 * b.getD (i + 3) 0

def FILE_MAGIC : Nat := 0xed26ff3a

def MAJOR_VERSION : Nat := 1

def MINOR_VERSION : Nat := 0

def FILE_HEADER_SIZE : Nat := 28

def CHUNK_HEADER_SIZE : Nat := 12

/-- JS `ChunkType.Raw` (src/sparse.ts enum `ChunkType`). -/
def ChunkTypeRaw : Nat := 0xcac1

/-- JS `ChunkType.Fill`. -/
def ChunkTypeFill : Nat := 0xcac2

/-- JS `ChunkType.Skip`. -/
def ChunkTypeSkip : Nat := 0xcac3

/-- JS `ChunkType.Crc32`. -/
def ChunkTypeCrc32 : Nat := 0xcac4

/-- JS `SparseHeader` (src/sparse.ts): all fields decoded as unsigned ints. -/
structure SparseHeader where
  blockSize : Nat
  blocks : Nat
  chunks : Nat
  crc32 : Nat
deriving DecidableEq, Repr

/-- JS `SparseChunk` (src/sparse.ts). `blocks` and `dataBytes` are JS numbers
that can become negative (`dataBytes = getUint32(8) - 12`; the trailing Skip
chunk's `blocks = header.blocks - splitBlocks`), hence `Int`. `data` is the
payload blob's bytes. -/
structure SparseChunk where
  type : Nat
  blocks : Int
  dataBytes : Int
  data : List Nat
deriving DecidableEq, Repr

/-- JS `parseFileHeader` (src/sparse.ts:71): `.ok none` models returning `null`
on a magic mismatch, `.error` models throwing `ImageError`. -/
def parseFileHeader (buffer : List Nat) : Except String (Option SparseHeader) :=
  let magic := getUint32 buffer 0
  if magic ≠ FILE_MAGIC then
    .ok none
  else
    let major := getUint16 buffer 4
    let minor := getUint16 buffer 6
    if major ≠ MAJOR_VERSION ∨ minor < MINOR_VERSION then
      .error "Unsupported sparse image version"
    else
      let fileHdrSize := getUint16 buffer 8
      let chunkHdrSize := getUint16 buffer 10
      if fileHdrSize ≠ FILE_HEADER_SIZE ∨ chunkHdrSize ≠ CHUNK_HEADER_SIZE then
        .error "Invalid file header size or chunk header size"
      else
        let blockSize := getUint32 buffer 12
        if blockSize % 4 ≠ 0 then
          .error "Block size is not a multiple of 4"
        else
          .ok (some
            { blockSize := blockSize
              blocks := getUint32 buffer 16
              chunks := getUint32 buffer 20
              crc32 := getUint32 buffer 24 })

/-- JS `parseChunkHeader` (src/sparse.ts:112); the consumer fills in `data`. -/
def parseChunkHeader (buffer : List Nat) : SparseChunk :=
  { type := getUint16 buffer 0
    blocks := (getUint32 buffer 4 : Int)
    dataBytes := (getUint32 buffer 8 : Int) - (CHUNK_HEADER_SIZE : Int)
    data := [] }

/-- JS `calcChunksBlockSize` (src/sparse.ts:126): `reduce((total, c) => total + c, 0)`
over the chunks' `blocks`. -/
def calcChunksBlockSize (chunks : List SparseChunk) : Int :=
  (chunks.map (·.blocks)).foldl (· + ·) 0

/-- JS `calcChunksDataSize` (src/sparse.ts:132): sums `chunk.data.size`. -/
def calcChunksDataSize (chunks : List SparseChunk) : Nat :=
  (chunks.map (·.data.length)).foldl (· + ·) 0

/-- JS `calcChunksSize` (src/sparse.ts:138): 28-byte file header plus 12-byte
chunk headers plus payload sizes. -/
def calcChunksSize (chunks : List SparseChunk) : Nat :=
  FILE_HEADER_SIZE + CHUNK_HEADER_SIZE * chunks.length + calcChunksDataSize chunks

/-- Little-endian bytes written by `DataView.setUint16`. -/
def u16le (n : Nat) : List Nat := [n % 256, n / 256 % 256]

/-- Little-endian bytes written by `DataView.setUint32`. -/
def u32le (n : Nat) : List Nat :=
  [n % 256, n / 256 % 256, n / 65536 % 256, n / 16777216 % 256]

/-- JS `setUint32` on a possibly-negative JS number applies `ToUint32`,
i.e. two's-complement reduction modulo 2^32. -/
def u32leOfInt (i : Int) : List Nat := u32le ((i % (4294967296 : Int)).toNat)

/-- The 28 file-header bytes written by `createImage` (src/sparse.ts:147-167):
magic, v1.0, fixed header sizes, then blockSize / blocks / chunk count, and a
CRC field always written as 0. -/
def fileHeaderBytes (header : SparseHeader) (chunkCount : Nat) : List Nat :=
  u32le FILE_MAGIC ++ u16le MAJOR_VERSION ++ u16le MINOR_VERSION ++
    u16le FILE_HEADER_SIZE ++ u16le CHUNK_HEADER_SIZE ++
    u32le header.blockSize ++ u32le header.blocks ++ u32le chunkCount ++ u32le 0

/-- The 12 chunk-header bytes plus payload written per chunk by `createImage`
(src/sparse.ts:169-186). -/
def chunkBytes (chunk : SparseChunk) : List Nat :=
  u16le chunk.type ++ u16le 0 ++ u32leOfInt chunk.blocks ++
    u32le (CHUNK_HEADER_SIZE + chunk.data.length) ++ chunk.data

/-- JS `createImage` (src/sparse.ts:144): serialize header then chunks. -/
def createImage (header : SparseHeader) (chunks : List SparseChunk) : List Nat :=
  fileHeaderBytes header chunks.length ++ (chunks.map chunkBytes).flatten

/-- The Skip chunks synthesized by `splitBlob` (src/sparse.ts:279-284 and
308-314): empty data, `dataBytes` 0. -/
def skipChunk (blocks : Int) : SparseChunk :=
  { type := ChunkTypeSkip, blocks := blocks, dataBytes := 0, data := [] }

/-- The chunk-walking loop of `splitBlob` (src/sparse.ts:254-335) on parsed
chunks. Arguments: remaining input chunks, the current `splitChunks`, the
current `splitDataBytes`. Emits each finished split as its chunk list paired
with its `splitDataBytes`; a split that does not fit is closed with a trailing
Skip chunk of `header.blocks - splitBlocks` blocks and the next split starts
with a leading Skip chunk of `splitBlocks` blocks followed by the pending
chunk. After the loop the pending split is emitted unless it is empty or a
lone Skip chunk. -/
def splitBlobLoop (header : SparseHeader) (splitSize : Nat) :
    List SparseChunk → List SparseChunk → Int → List (List SparseChunk × Int)
  | [], splitChunks, splitDataBytes =>
    if 0 < splitChunks.length ∧
        (1 < splitChunks.length ∨ splitChunks.head?.map (·.type) ≠ some ChunkTypeSkip) then
      [(splitChunks, splitDataBytes)]
    else
      []
  | chunk :: rest, splitChunks, splitDataBytes =>
    let bytesRemaining : Int := (splitSize : Int) - (calcChunksSize splitChunks : Int)
    if chunk.dataBytes ≤ bytesRemaining then
      splitBlobLoop header splitSize rest (splitChunks ++ [chunk])
        (splitDataBytes + chunk.blocks * (header.blockSize : Int))
    else
      let splitBlocks := calcChunksBlockSize splitChunks
      (splitChunks ++ [skipChunk ((header.blocks : Int) - splitBlocks)], splitDataBytes) ::
        splitBlobLoop header splitSize rest [skipChunk splitBlocks, chunk] 0

/-- The splits of `splitBlob` at chunk level, before `createImage`
serialization: the loop started with an empty split. -/
def splitBlobChunks (header : SparseHeader) (chunks : List SparseChunk)
    (splitSize : Nat) : List (List SparseChunk × Int) :=
  splitBlobLoop header splitSize chunks [] 0

/-- The per-chunk extraction done inside `splitBlob` (src/sparse.ts:256-262):
parse the 12 header bytes, slice the payload (`Blob.slice` clamps an end
before the start to the empty blob), advance past the chunk. -/
def extractChunks : Nat → List Nat → List SparseChunk
  | 0, _ => []
  | n + 1, blob =>
    let ch := parseChunkHeader (blob.take CHUNK_HEADER_SIZE)
    let chunk := { ch with data := (blob.drop CHUNK_HEADER_SIZE).take ch.dataBytes.toNat }
    chunk :: extractChunks n (blob.drop (((CHUNK_HEADER_SIZE : Int) + ch.dataBytes).toNat))

/-- JS `splitBlob` (src/sparse.ts:228): yields the blob unchanged when it fits in
one payload; otherwise parses the file header (throwing if it is not a sparse
image), zeroes the CRC field, extracts `header.chunks` chunks and runs the
split loop, serializing every split with `createImage`. Each yielded split is
(bytes, `splitDataBytes`). -/
def splitBlob (blob : List Nat) (splitSize : Nat) :
    Except String (List (List Nat × Int)) :=
  if blob.length ≤ splitSize then
    .ok [(blob, (blob.length : Int))]
  else
    match parseFileHeader (blob.take FILE_HEADER_SIZE) with
    | .error e => .error e
    | .ok none => .error "Blob is not a sparse image"
    | .ok (some header0) =>
      let header := { header0 with crc32 := 0 }
      let chunks := extractChunks header.chunks (blob.drop FILE_HEADER_SIZE)
      .ok ((splitBlobChunks header chunks splitSize).map
        (fun s => (createImage header s.1, s.2)))

/-! ### C4: `parseFileHeader` behaviour on every 28-byte buffer -/

/-- C4: on every 28-byte buffer, `parseFileHeader` returns `null` (`.ok none`)
when the little-endian u32 magic differs from 0xED26FF3A; with matching magic
it throws `ImageError` when the major version is not 1, the file header size
field is not 28, the chunk header size field is not 12, or the block size is
not a multiple of 4; otherwise it returns the decoded header. -/
theorem parseFileHeader_spec (b : List Nat) (hlen : b.length = 28) :
    (getUint32 b 0 ≠ FILE_MAGIC → parseFileHeader b = .ok none) ∧
    (getUint32 b 0 = FILE_MAGIC →
      (getUint16 b 4 ≠ 1 ∨ getUint16 b 8 ≠ 28 ∨ getUint16 b 10 ≠ 12 ∨
        getUint32 b 12 % 4 ≠ 0) →
      ∃ e, parseFileHeader b = .error e) ∧
    (getUint32 b 0 = FILE_MAGIC → getUint16 b 4 = 1 → getUint16 b 8 = 28 →
      getUint16 b 10 = 12 → getUint32 b 12 % 4 = 0 →
      parseFileHeader b = .ok (some
        { blockSize := getUint32 b 12, blocks := getUint32 b 16,
          chunks := getUint32 b 20, crc32 := getUint32 b 24 })) := by
  refine ⟨fun hm => ?_, fun hm hbad => ?_, fun hm h1 h2 h3 h4 => ?_⟩
  · simp [parseFileHeader, hm]
  · by_cases hmaj : getUint16 b 4 = 1
    · by_cases hfh : getUint16 b 8 = 28
      · by_cases hch : getUint16 b 10 = 12
        · have h4 : getUint32 b 12 % 4 ≠ 0 := by
            rcases hbad with h | h | h | h
            · exact absurd hmaj h
            · exact absurd hfh h
            · exact absurd hch h
            · exact h
          exact ⟨"Block size is not a multiple of 4",
            by simp [parseFileHeader, hm, MAJOR_VERSION, MINOR_VERSION,
              FILE_HEADER_SIZE, CHUNK_HEADER_SIZE, hmaj, hfh, hch, h4]⟩
        · exact ⟨"Invalid file header size or chunk header size",
            by simp [parseFileHeader, hm, MAJOR_VERSION, MINOR_VERSION,
              FILE_HEADER_SIZE, CHUNK_HEADER_SIZE, hmaj, hfh, hch]⟩
      · exact ⟨"Invalid file header size or chunk header size",
          by simp [parseFileHeader, hm, MAJOR_VERSION, MINOR_VERSION,
            FILE_HEADER_SIZE, hmaj, hfh]⟩
    · exact ⟨"Unsupported sparse image version",
        by simp [parseFileHeader, hm, MAJOR_VERSION, hmaj]⟩
  · simp [parseFileHeader, hm, MAJOR_VERSION, MINOR_VERSION, FILE_HEADER_SIZE,
      CHUNK_HEADER_SIZE, h1, h2, h3, h4]

/-- A concrete valid 28-byte sparse file header used as a witness input:
magic 0xED26FF3A, v1.0, header sizes 28/12, blockSize 4096, 2 blocks,
1 chunk, crc 0. -/
def sampleHeaderBytes : List Nat :=
  [0x3a, 0xff, 0x26, 0xed, 1, 0, 0, 0, 28, 0, 12, 0,
   0, 16, 0, 0, 2, 0, 0, 0, 1, 0, 0, 0, 0, 0, 0, 0]

/-- Witness for C4: the theorem applied to the concrete header above. -/
theorem parseFileHeader_spec_witness :
    parseFileHeader sampleHeaderBytes = .ok (some
      { blockSize := getUint32 sampleHeaderBytes 12,
        blocks := getUint32 sampleHeaderBytes 16,
        chunks := getUint32 sampleHeaderBytes 20,
        crc32 := getUint32 sampleHeaderBytes 24 }) :=
  (parseFileHeader_spec sampleHeaderBytes (by decide)).2.2 (by decide) (by decide)
    (by decide) (by decide) (by decide)

/-! ### C3: the no-split shortcut -/

/-- C3: when the blob fits within `splitSize`, `splitBlob` yields exactly one
split whose bytes are the unmodified input and whose reported byte count is
the blob's size. -/
theorem splitBlob_noSplit (blob : List Nat) (splitSize : Nat)
    (h : blob.length ≤ splitSize) :
    splitBlob blob splitSize = .ok [(blob, (blob.length : Int))] := by
  simp [splitBlob, h]

/-- Witness for C3 at a concrete 3-byte blob with `splitSize = 3`. -/
theorem splitBlob_noSplit_witness :
    ([7, 8, 9] : List Nat).length ≤ 3 ∧
      splitBlob [7, 8, 9] 3 = .ok [([7, 8, 9], (([7, 8, 9] : List Nat).length : Int))] :=
  ⟨by decide, splitBlob_noSplit [7, 8, 9] 3 (by decide)⟩

/-! ### Arithmetic helpers for the split loop -/

theorem foldl_add_shift {M : Type*} [AddCommMonoid M] (l : List M) (a : M) :
    l.foldl (· + ·) a = a + l.foldl (· + ·) 0 := by
  induction l generalizing a with
  | nil => simp
  | cons x xs ih =>
    rw [List.foldl_cons, List.foldl_cons, ih (a + x), ih (0 + x)]
    rw [zero_add, add_assoc]

theorem calcChunksBlockSize_append (a b : List SparseChunk) :
    calcChunksBlockSize (a ++ b) = calcChunksBlockSize a + calcChunksBlockSize b := by
  simp only [calcChunksBlockSize, List.map_append, List.foldl_append]
  rw [foldl_add_shift]

theorem calcChunksBlockSize_cons (c : SparseChunk) (cs : List SparseChunk) :
    calcChunksBlockSize (c :: cs) = c.blocks + calcChunksBlockSize cs := by
  simp only [calcChunksBlockSize, List.map_cons, List.foldl_cons]
  rw [foldl_add_shift, zero_add]

theorem calcChunksDataSize_append (a b : List SparseChunk) :
    calcChunksDataSize (a ++ b) = calcChunksDataSize a + calcChunksDataSize b := by
  simp only [calcChunksDataSize, List.map_append, List.foldl_append]
  rw [foldl_add_shift]

theorem calcChunksSize_append (a b : List SparseChunk) :
    calcChunksSize (a ++ b) =
      calcChunksSize a + CHUNK_HEADER_SIZE * b.length + calcChunksDataSize b := by
  simp only [calcChunksSize, List.length_append, calcChunksDataSize_append]
  ring

theorem chunkBytes_length (c : SparseChunk) :
    (chunkBytes c).length = CHUNK_HEADER_SIZE + c.data.length := by
  simp [chunkBytes, u16le, u32le, u32leOfInt, CHUNK_HEADER_SIZE]
  omega

theorem fileHeaderBytes_length (header : SparseHeader) (chunkCount : Nat) :
    (fileHeaderBytes header chunkCount).length = FILE_HEADER_SIZE := by
  simp [fileHeaderBytes, u32le, u16le, FILE_HEADER_SIZE]

theorem calcChunksDataSize_cons (c : SparseChunk) (cs : List SparseChunk) :
    calcChunksDataSize (c :: cs) = c.data.length + calcChunksDataSize cs := by
  simp only [calcChunksDataSize, List.map_cons, List.foldl_cons]
  rw [foldl_add_shift, zero_add]

/-- The serialized image is exactly `calcChunksSize` bytes long: the encoded
byte length of a split is the quantity the split loop tracks. -/
theorem createImage_length (header : SparseHeader) (cs : List SparseChunk) :
    (createImage header cs).length = calcChunksSize cs := by
  induction cs with
  | nil =>
    simp only [createImage, List.map_nil, List.flatten_nil, List.length_append,
      fileHeaderBytes_length, List.length_nil, calcChunksSize, calcChunksDataSize,
      List.foldl_nil]
    omega
  | cons c rest ih =>
    have hrest := ih
    simp only [createImage, List.map_cons, List.flatten_cons, List.length_append,
      fileHeaderBytes_length, chunkBytes_length, calcChunksSize, List.length_cons,
      calcChunksDataSize_cons, mul_add, mul_one] at hrest ⊢
    omega

/-! ### C1: every split declares the full partition's block count -/

/-- Split-loop invariant for block conservation: if the blocks in the current
split plus the blocks of the remaining chunks account for the whole partition,
then every emitted split's chunks sum to `header.blocks`. -/
theorem splitBlobLoop_blocks (header : SparseHeader) (splitSize : Nat)
    (chunks : List SparseChunk) :
    ∀ (acc : List SparseChunk) (sdb : Int),
      calcChunksBlockSize acc + calcChunksBlockSize chunks = (header.blocks : Int) →
      ∀ s ∈ splitBlobLoop header splitSize chunks acc sdb,
        calcChunksBlockSize s.1 = (header.blocks : Int) := by
  induction chunks with
  | nil =>
    intro acc sdb hsum s hs
    simp only [splitBlobLoop] at hs
    split at hs
    · simp only [List.mem_singleton] at hs
      subst hs
      simpa [calcChunksBlockSize] using hsum
    · simp at hs
  | cons c rest ih =>
    intro acc sdb hsum s hs
    rw [calcChunksBlockSize_cons] at hsum
    simp only [splitBlobLoop] at hs
    split at hs
    · refine ih (acc ++ [c]) _ ?_ s hs
      rw [calcChunksBlockSize_append]
      have hone : calcChunksBlockSize [c] = c.blocks := by
        simp [calcChunksBlockSize]
      omega
    · rcases List.mem_cons.mp hs with hs | hs
      · subst hs
        rw [calcChunksBlockSize_append]
        have hone : calcChunksBlockSize [skipChunk ((header.blocks : Int) -
            calcChunksBlockSize acc)] =
            (header.blocks : Int) - calcChunksBlockSize acc := by
          simp [calcChunksBlockSize, skipChunk]
        omega
      · refine ih _ 0 ?_ s hs
        have htwo : calcChunksBlockSize [skipChunk (calcChunksBlockSize acc), c] =
            calcChunksBlockSize acc + c.blocks := by
          simp [calcChunksBlockSize, skipChunk]
        omega

/-- C1: for a valid sparse image whose chunks' `blocks` sum to
`header.blocks`, with `splitSize` at least each encoded chunk, every split
produced by `splitBlob`'s loop — its leading and trailing Skip chunks
included — declares exactly `header.blocks` blocks. -/
theorem splitBlob_block_conservation (header : SparseHeader)
    (chunks : List SparseChunk) (splitSize : Nat)
    (hsum : calcChunksBlockSize chunks = (header.blocks : Int))
    (_hfit : ∀ c ∈ chunks, c.dataBytes + (CHUNK_HEADER_SIZE : Int) ≤ (splitSize : Int)) :
    ∀ s ∈ splitBlobChunks header chunks splitSize,
      calcChunksBlockSize s.1 = (header.blocks : Int) := by
  refine splitBlobLoop_blocks header splitSize chunks [] 0 ?_
  simpa [calcChunksBlockSize] using hsum

/-- Witness input for C1: blockSize 4, 4 blocks over 3 Raw chunks; splitting
at 48 bytes produces three splits. -/
def c1Header : SparseHeader := { blockSize := 4, blocks := 4, chunks := 3, crc32 := 0 }

def c1Chunks : List SparseChunk :=
  [{ type := ChunkTypeRaw, blocks := 2, dataBytes := 8, data := List.replicate 8 1 },
   { type := ChunkTypeRaw, blocks := 1, dataBytes := 4, data := List.replicate 4 2 },
   { type := ChunkTypeRaw, blocks := 1, dataBytes := 4, data := List.replicate 4 3 }]

/-- Witness for C1 at the concrete image above. -/
theorem splitBlob_block_conservation_witness :
    calcChunksBlockSize c1Chunks = (c1Header.blocks : Int) ∧
    (∀ c ∈ c1Chunks, c.dataBytes + (CHUNK_HEADER_SIZE : Int) ≤ ((48 : Nat) : Int)) ∧
    ∀ s ∈ splitBlobChunks c1Header c1Chunks 48,
      calcChunksBlockSize s.1 = (c1Header.blocks : Int) :=
  ⟨by decide, by decide,
    splitBlob_block_conservation c1Header c1Chunks 48 (by decide) (by decide)⟩

/-! ### C2: split encoded-size bound -/

/-- Counterexample input for C2, a fully consistent sparse image: blockSize
4; an 8-byte / 2-block Raw chunk, a 3-block Skip chunk and another 8-byte /
2-block Raw chunk; the chunks' blocks sum to the declared 7 and every Raw
payload is exactly blocks times blockSize. Encoded chunk sizes are 20, 12
and 20 bytes (48, 40 and 48 counting the 28-byte file header). -/
def c2Header : SparseHeader := { blockSize := 4, blocks := 7, chunks := 3, crc32 := 0 }

def c2Chunks : List SparseChunk :=
  [{ type := ChunkTypeRaw, blocks := 2, dataBytes := 8, data := List.replicate 8 0 },
   { type := ChunkTypeSkip, blocks := 3, dataBytes := 0, data := [] },
   { type := ChunkTypeRaw, blocks := 2, dataBytes := 8, data := List.replicate 8 1 }]

/-- Counterexample for C2: on a valid sparse image whose every chunk's
encoded size — even counting the 28-byte file header — is within
`maxSplitBytes = 48`, the first emitted split serializes to 72 bytes. The
fit check `bytesRemaining >= chunk.dataBytes` ignores both the incoming
chunk's 12-byte header and the trailing Skip chunk's 12 bytes, so a split
overshoots `maxSplitBytes` even though no single chunk exceeds it. -/
theorem splitBlob_size_bound_cex :
    calcChunksBlockSize c2Chunks = (c2Header.blocks : Int) ∧
    (∀ c ∈ c2Chunks,
      FILE_HEADER_SIZE + CHUNK_HEADER_SIZE + c.data.length ≤ 48 ∧
        c.dataBytes = (c.data.length : Int)) ∧
    ∃ s ∈ splitBlobChunks c2Header c2Chunks 48,
      48 < (createImage c2Header s.1).length := by
  decide

/-- Split-loop invariant for the amended size bound: if every remaining chunk
fits a fresh split (52 + payload ≤ splitSize) and the split under
construction is within `splitSize + 12`, every emitted split is within
`splitSize + 24`. -/
theorem splitBlobLoop_size (header : SparseHeader) (splitSize : Nat)
    (chunks : List SparseChunk) :
    ∀ (acc : List SparseChunk) (sdb : Int),
      (∀ c ∈ chunks, c.dataBytes = (c.data.length : Int) ∧
        FILE_HEADER_SIZE + 2 * CHUNK_HEADER_SIZE + c.data.length ≤ splitSize) →
      calcChunksSize acc ≤ splitSize + CHUNK_HEADER_SIZE →
      ∀ s ∈ splitBlobLoop header splitSize chunks acc sdb,
        calcChunksSize s.1 ≤ splitSize + 2 * CHUNK_HEADER_SIZE := by
  induction chunks with
  | nil =>
    intro acc sdb _ hacc s hs
    simp only [splitBlobLoop] at hs
    split at hs
    · simp only [List.mem_singleton] at hs
      subst hs
      simp only [CHUNK_HEADER_SIZE] at hacc ⊢
      omega
    · simp at hs
  | cons c rest ih =>
    intro acc sdb hchunks hacc s hs
    obtain ⟨hcdb, hcfit⟩ := hchunks c (List.mem_cons_self c rest)
    have hrest : ∀ x ∈ rest, x.dataBytes = (x.data.length : Int) ∧
        FILE_HEADER_SIZE + 2 * CHUNK_HEADER_SIZE + x.data.length ≤ splitSize :=
      fun x hx => hchunks x (List.mem_cons_of_mem c hx)
    simp only [splitBlobLoop] at hs
    split at hs
    · rename_i hguard
      refine ih (acc ++ [c]) _ hrest ?_ s hs
      rw [hcdb] at hguard
      rw [calcChunksSize_append]
      have h1 : calcChunksDataSize [c] = c.data.length := by
        simp [calcChunksDataSize]
      simp only [List.length_cons, List.length_nil, h1]
      omega
    · rcases List.mem_cons.mp hs with hs | hs
      · subst hs
        rw [calcChunksSize_append]
        have h1 : calcChunksDataSize
            [skipChunk ((header.blocks : Int) - calcChunksBlockSize acc)] = 0 := by
          simp [calcChunksDataSize, skipChunk]
        simp only [List.length_cons, List.length_nil, h1]
        omega
      · refine ih [skipChunk (calcChunksBlockSize acc), c] 0 hrest ?_ s hs
        have h2 : calcChunksSize [skipChunk (calcChunksBlockSize acc), c] =
            FILE_HEADER_SIZE + 2 * CHUNK_HEADER_SIZE + c.data.length := by
          simp only [calcChunksSize, calcChunksDataSize, skipChunk, List.map_cons,
            List.map_nil, List.foldl_cons, List.foldl_nil, List.length_cons,
            List.length_nil]
          omega
        omega

/-- C2 as amended: provided every input chunk fits a fresh split — its payload
plus the 28-byte file header and two 12-byte chunk headers (its own and a
Skip's) within `splitSize` — every split serialized by `splitBlob` is at most
`splitSize + 24` bytes. The unamended bound `splitSize` does not hold (see the
counterexample): the fit check ignores the incoming chunk's 12-byte header and
the trailing Skip chunk's 12 bytes. -/
theorem splitBlob_size_bound_amended (header : SparseHeader)
    (chunks : List SparseChunk) (splitSize : Nat)
    (hchunks : ∀ c ∈ chunks, c.dataBytes = (c.data.length : Int) ∧
      FILE_HEADER_SIZE + 2 * CHUNK_HEADER_SIZE + c.data.length ≤ splitSize) :
    ∀ s ∈ splitBlobChunks header chunks splitSize,
      (createImage header s.1).length ≤ splitSize + 2 * CHUNK_HEADER_SIZE := by
  intro s hs
  rw [createImage_length]
  cases chunks with
  | nil => simp [splitBlobChunks, splitBlobLoop] at hs
  | cons c rest =>
    refine splitBlobLoop_size header splitSize (c :: rest) [] 0 hchunks ?_ s hs
    have := (hchunks c (List.mem_cons_self c rest)).2
    have hnil : calcChunksSize [] = FILE_HEADER_SIZE := by
      simp [calcChunksSize, calcChunksDataSize]
    omega

/-- Witness for the amended C2 bound at the concrete image of C1 with
`splitSize = 60`. -/
theorem splitBlob_size_bound_amended_witness :
    (∀ c ∈ c1Chunks, c.dataBytes = (c.data.length : Int) ∧
      FILE_HEADER_SIZE + 2 * CHUNK_HEADER_SIZE + c.data.length ≤ 60) ∧
    ∀ s ∈ splitBlobChunks c1Header c1Chunks 60,
      (createImage c1Header s.1).length ≤ 60 + 2 * CHUNK_HEADER_SIZE :=
  ⟨by decide, splitBlob_size_bound_amended c1Header c1Chunks 60 (by decide)⟩

/-! ## Fastboot protocol client (src/fastboot.ts) -/

/-- JS `CommandResponse` (src/fastboot.ts:47): accumulated response text and the
optional `DATA` payload, as character lists. -/
structure CommandResponse where
  text : List Char
  dataSize : Option (List Char)
deriving DecidableEq, Repr

/-- Errors thrown by the client: `FastbootError(status, message)`
(src/fastboot.ts:35) and `TimeoutError(timeout)` (src/common.ts). -/
inductive FbFailure where
  | bootloader (status : String) (message : String)
  | timeout (ms : Nat)
deriving DecidableEq, Repr

/-- JS `_readResponse` (src/fastboot.ts:286): drain response packets, `text`
being the text accumulated so far (initially empty). The tag is the first 4
characters of each packet, the body the rest. `none` models blocking forever
on an exhausted packet stream. -/
def readResponse : List (List Char) → List Char →
    Option (Except FbFailure CommandResponse)
  | [], _ => none
  | packet :: rest, text =>
    let respStatus := packet.take 4
    let respMessage := packet.drop 4
    if respStatus = "OKAY".data then
      some (.ok { text := text ++ respMessage, dataSize := none })
    else if respStatus = "INFO".data then
      readResponse rest (text ++ respMessage ++ "\n".data)
    else if respStatus = "DATA".data then
      some (.ok { text := text, dataSize := some respMessage })
    else
      some (.error (.bootloader ⟨respStatus⟩ ⟨respMessage⟩))

/-! ### C5: response framing -/

/-- One unfolding step of `readResponse`. -/
theorem readResponse_cons (packet : List Char) (rest : List (List Char))
    (text : List Char) :
    readResponse (packet :: rest) text =
      if packet.take 4 = "OKAY".data then
        some (.ok (CommandResponse.mk (text ++ packet.drop 4) none))
      else if packet.take 4 = "INFO".data then
        readResponse rest (text ++ packet.drop 4 ++ "\n".data)
      else if packet.take 4 = "DATA".data then
        some (.ok (CommandResponse.mk text (some (packet.drop 4))))
      else
        some (.error (.bootloader ⟨packet.take 4⟩ ⟨packet.drop 4⟩)) := rfl

theorem readResponse_info_drain (bodies : List (List Char))
    (ps : List (List Char)) (acc : List Char) :
    readResponse (bodies.map (fun b => "INFO".data ++ b) ++ ps) acc =
      readResponse ps (acc ++ (bodies.map (fun b => b ++ "\n".data)).flatten) := by
  induction bodies generalizing acc with
  | nil => simp
  | cons b bs ih =>
    have htake : ("INFO".data ++ b).take 4 = "INFO".data := rfl
    have hdrop : ("INFO".data ++ b).drop 4 = b := rfl
    rw [List.map_cons, List.cons_append, readResponse_cons, htake, hdrop]
    rw [if_neg (by decide), if_pos rfl, ih]
    rw [List.map_cons, List.flatten_cons]
    simp [List.append_assoc]

/-- C5: reading a packet stream of INFO packets followed by a terminal
packet `t`: each INFO body is appended to the text with a `"\n"` separator in
arrival order and reading continues; an OKAY terminal appends its body and
returns; a DATA terminal stores its body verbatim as `dataSize` and returns
without reading the remaining packets; any other tag (FAIL or unrecognized)
raises `FastbootError` carrying that tag and the body. -/
theorem readResponse_spec (bodies : List (List Char)) (t : List Char)
    (rest : List (List Char)) :
    (t.take 4 = "OKAY".data →
      readResponse (bodies.map (fun b => "INFO".data ++ b) ++ t :: rest) [] =
        some (.ok (CommandResponse.mk
          ((bodies.map (fun b => b ++ "\n".data)).flatten ++ t.drop 4) none))) ∧
    (t.take 4 = "DATA".data →
      readResponse (bodies.map (fun b => "INFO".data ++ b) ++ t :: rest) [] =
        some (.ok (CommandResponse.mk
          ((bodies.map (fun b => b ++ "\n".data)).flatten) (some (t.drop 4))))) ∧
    (t.take 4 ≠ "OKAY".data → t.take 4 ≠ "INFO".data → t.take 4 ≠ "DATA".data →
      readResponse (bodies.map (fun b => "INFO".data ++ b) ++ t :: rest) [] =
        some (.error (.bootloader ⟨t.take 4⟩ ⟨t.drop 4⟩))) := by
  rw [readResponse_info_drain bodies (t :: rest) []]
  refine ⟨fun h => ?_, fun h => ?_, fun h1 h2 h3 => ?_⟩
  · rw [readResponse_cons, if_pos h]
    simp only [List.nil_append]
  · rw [readResponse_cons, if_neg (by rw [h]; decide), if_neg (by rw [h]; decide),
      if_pos h]
    simp only [List.nil_append]
  · rw [readResponse_cons, if_neg h1, if_neg h2, if_neg h3]

/-- Witness for C5: two INFO packets, then a FAIL terminal. -/
theorem readResponse_spec_witness :
    readResponse [("INFO".data ++ "one".data), ("INFO".data ++ "two".data),
        "FAILoops".data, "OKAY".data] [] =
      some (.error (.bootloader ⟨("FAILoops".data).take 4⟩ ⟨("FAILoops".data).drop 4⟩)) :=
  (readResponse_spec ["one".data, "two".data] "FAILoops".data ["OKAY".data]).2.2
    (by decide) (by decide) (by decide)

/-! ### C6 and C10: `getVariable` -/

/-- JS `getVariable` (src/fastboot.ts:349). `r` models the outcome of
`runWithTimeout(runCommand("getvar:..."), GETVAR_TIMEOUT)`: the response
`.text` on success, or the error it threw. A thrown `FastbootError` with
status `"FAIL"` is normalized to a `null` result; other errors propagate.
The JS `resp ? resp.trim() : null` maps both `null` and the empty string to
`null` and trims otherwise. -/
def getVariable (r : Except FbFailure String) : Except FbFailure (Option String) :=
  match r with
  | .ok t => .ok (if t = "" then none else some t.trim)
  | .error e =>
    match e with
    | .bootloader status _ => if status = "FAIL" then .ok none else .error e
    | .timeout ms => .error (.timeout ms)

/-- C6: a `FastbootError` with status tag `FAIL` from the getvar command makes
`getVariable` return `null`; any other error — a timeout included — propagates
unchanged; and whenever a string is returned it is the response text trimmed
of surrounding whitespace. -/
theorem getVariable_spec (m : String) (e : FbFailure) (t : String) :
    getVariable (.error (.bootloader "FAIL" m)) = .ok none ∧
    ((∀ msg, e ≠ .bootloader "FAIL" msg) → getVariable (.error e) = .error e) ∧
    (∀ s, getVariable (.ok t) = .ok (some s) → s = t.trim) := by
  refine ⟨by simp [getVariable], fun he => ?_, fun s hs => ?_⟩
  · cases e with
    | bootloader status msg =>
      have : status ≠ "FAIL" := by
        intro hst
        exact he msg (by rw [hst])
      simp [getVariable, this]
    | timeout ms => simp [getVariable]
  · simp only [getVariable] at hs
    split at hs
    · simp at hs
    · simp only [Except.ok.injEq, Option.some.injEq] at hs
      exact hs.symm

/-- Witness for C6. -/
theorem getVariable_spec_witness :
    getVariable (.error (.bootloader "FAIL" "No such variable")) = .ok none ∧
    getVariable (.error (.timeout 10000)) = .error (.timeout 10000) ∧
    (" value ").trim = (" value ").trim :=
  ⟨(getVariable_spec "No such variable" (.timeout 10000) " value ").1,
    (getVariable_spec "No such variable" (.timeout 10000) " value ").2.1
      (by intro msg h; simp at h),
    (getVariable_spec "No such variable" (.timeout 10000) " value ").2.2
      ((" value ").trim) (by simp [getVariable])⟩

/-- C10: an OKAY reply with an empty body makes `getVariable` return `null`
(not the empty string) — the same result as a FAIL reply, so an empty-valued
variable is indistinguishable from an absent one. -/
theorem getVariable_empty_body (m : String) :
    getVariable (.ok "") = .ok none ∧
    getVariable (.error (.bootloader "FAIL" m)) = .ok none := by
  exact ⟨by simp [getVariable], by simp [getVariable]⟩

/-! ### C7: `upload` size handshake -/

/-- A lowercase hexadecimal digit, as `Number.prototype.toString(16)`
produces. -/
def hexDigitChar (n : Nat) : Char := ("0123456789abcdef").data.getD n '0'

/-- The hex digits of `n.toString(16)`, least significant first. -/
def toHexLE (n : Nat) : List Char :=
  if h : n < 16 then
    [hexDigitChar n]
  else
    have : n / 16 < n := Nat.div_lt_self (by omega) (by omega)
    hexDigitChar (n % 16) :: toHexLE (n / 16)

/-- JS `n.toString(16)` as a character list. -/
def toHexString (n : Nat) : List Char := (toHexLE n).reverse

/-- JS `String.prototype.padStart(n, c)`. -/
def padStart (l : List Char) (n : Nat) (c : Char) : List Char :=
  List.replicate (n - l.length) c ++ l

/-- The value of a hexadecimal digit character, `none` for non-digits. -/
def hexDigitVal (c : Char) : Option Nat :=
  if '0' ≤ c ∧ c ≤ '9' then some (c.toNat - '0'.toNat)
  else if 'a' ≤ c ∧ c ≤ 'f' then some (c.toNat - 'a'.toNat + 10)
  else if 'A' ≤ c ∧ c ≤ 'F' then some (c.toNat - 'A'.toNat + 10)
  else none

/-- JS `parseInt(s, 16)` after whitespace/sign handling: strip an optional
`0x`/`0X` prefix, then read the maximal run of hex digits; no digits is NaN
(`none`). -/
def parseHexNat (l : List Char) : Option Nat :=
  let stripped :=
    match l with
    | '0' :: 'x' :: rest => rest
    | '0' :: 'X' :: rest => rest
    | rest => rest
  let digits := stripped.takeWhile (fun c => (hexDigitVal c).isSome)
  if digits.isEmpty then none
  else some (digits.foldl (fun a c => 16 * a + (hexDigitVal c).getD 0) 0)

/-- JS `parseInt(s, 16)` (as used on `downloadResp.dataSize`): skip leading
whitespace, handle an optional sign, parse hex; `none` is NaN. -/
def parseIntHex (s : List Char) : Option Int :=
  let s1 := s.dropWhile (fun c =>
    c = ' ' ∨ c = '\t' ∨ c = '\n' ∨ c = '\r' ∨ c = '\x0b' ∨ c = '\x0c')
  match s1 with
  | '-' :: rest => (parseHexNat rest).map (fun n => -(n : Int))
  | '+' :: rest => (parseHexNat rest).map (fun n => (n : Int))
  | rest => (parseHexNat rest).map (fun n => (n : Int))

/-- Transport-visible actions of `upload`: commands sent with `runCommand`
and raw payload transfers. -/
inductive UploadEvent where
  | command (cmd : List Char)
  | payload (byteLength : Nat)
deriving DecidableEq, Repr

/-- JS `upload` (src/fastboot.ts:443) in terms of its transport effects: `len`
is `buffer.byteLength`, `downloadResp` the response the device gives to the
download command, `finalResp` the outcome of the final `_readResponse()`.
Returns the transport events issued in order together with the overall
outcome. -/
def upload (len : Nat) (downloadResp : CommandResponse)
    (finalResp : Except FbFailure Unit) :
    List UploadEvent × Except FbFailure Unit :=
  let xferHex := padStart (toHexString len) 8 '0'
  if xferHex.length ≠ 8 then
    ([], .error (.bootloader "FAIL" "Transfer size overflow"))
  else
    let events := [UploadEvent.command ("download:".data ++ xferHex)]
    match downloadResp.dataSize with
    | none =>
      (events, .error (.bootloader "FAIL" "Unexpected response to download command"))
    | some ds =>
      if parseIntHex ds ≠ some (len : Int) then
        (events, .error (.bootloader "FAIL" "Bootloader wants a different byte count"))
      else
        (events ++ [UploadEvent.payload len], finalResp)

theorem toHexLE_length_pos (n : Nat) : 0 < (toHexLE n).length := by
  rw [toHexLE]
  split <;> simp

/-- JS `n.toString(16)` has at most `k + 1` digits exactly when `n < 16 ^ (k + 1)`. -/
theorem toHexLE_length_le (k : Nat) : ∀ n, (toHexLE n).length ≤ k + 1 ↔ n < 16 ^ (k + 1) := by
  induction k with
  | zero =>
    intro n
    by_cases h : n < 16
    · rw [toHexLE]
      simp [h]
    · rw [toHexLE]
      simp only [h, dite_false, List.length_cons]
      have := toHexLE_length_pos (n / 16)
      constructor
      · intro hle
        omega
      · intro hlt
        simp [pow_one] at hlt
        omega
  | succ k ih =>
    intro n
    by_cases h : n < 16
    · rw [toHexLE]
      simp only [h, dite_true, List.length_singleton]
      constructor
      · intro _
        calc n < 16 := h
          _ = 16 ^ 1 := (pow_one 16).symm
          _ ≤ 16 ^ (k + 2) := Nat.pow_le_pow_right (by omega) (by omega)
      · intro _
        omega
    · rw [toHexLE]
      simp only [h, dite_false, List.length_cons]
      have hdiv := ih (n / 16)
      have h16 : (0 : Nat) < 16 := by omega
      constructor
      · intro hle
        have : (toHexLE (n / 16)).length ≤ k + 1 := by omega
        have := hdiv.mp this
        have := (Nat.div_lt_iff_lt_mul h16).mp this
        calc n < 16 ^ (k + 1) * 16 := this
          _ = 16 ^ (k + 2) := by rw [← pow_succ]
      · intro hlt
        have : n < 16 ^ (k + 1) * 16 := by
          calc n < 16 ^ (k + 2) := hlt
            _ = 16 ^ (k + 1) * 16 := by rw [← pow_succ]
        have := (Nat.div_lt_iff_lt_mul h16).mpr this
        have := hdiv.mpr this
        omega

/-- The 8-digit-hex check: `padStart(8, "0")` yields a string of length other
than 8 exactly when the value needs more than 8 hex digits, i.e. when it is
at least 2^32. -/
theorem xferHex_length_ne_8 (n : Nat) :
    (padStart (toHexString n) 8 '0').length ≠ 8 ↔ 2 ^ 32 ≤ n := by
  have hlen : (padStart (toHexString n) 8 '0').length =
      (8 - (toHexLE n).length) + (toHexLE n).length := by
    simp [padStart, toHexString]
  have h8 : (toHexLE n).length ≤ 8 ↔ n < 16 ^ 8 := toHexLE_length_le 7 n
  have h16 : (16 : Nat) ^ 8 = 2 ^ 32 := by norm_num
  rw [hlen]
  omega

/-- C7: a payload of 2^32 bytes or more makes `upload` fail before issuing any
device command or transport write; otherwise, after the download command, a
response without a `DATA` size, or one whose echoed size differs from the
payload's byte length, makes `upload` fail without sending the payload. -/
theorem upload_spec (len : Nat) (downloadResp : CommandResponse)
    (finalResp : Except FbFailure Unit) :
    (2 ^ 32 ≤ len →
      upload len downloadResp finalResp =
        ([], .error (.bootloader "FAIL" "Transfer size overflow"))) ∧
    (len < 2 ^ 32 → downloadResp.dataSize = none →
      (upload len downloadResp finalResp).1 =
        [UploadEvent.command ("download:".data ++ padStart (toHexString len) 8 '0')] ∧
      ∃ e, (upload len downloadResp finalResp).2 = .error e) ∧
    (len < 2 ^ 32 → ∀ ds, downloadResp.dataSize = some ds →
      parseIntHex ds ≠ some (len : Int) →
      (upload len downloadResp finalResp).1 =
        [UploadEvent.command ("download:".data ++ padStart (toHexString len) 8 '0')] ∧
      ∃ e, (upload len downloadResp finalResp).2 = .error e) := by
  refine ⟨fun hbig => ?_, fun hsmall hnone => ?_, fun hsmall ds hds hne => ?_⟩
  · have h := (xferHex_length_ne_8 len).mpr hbig
    simp [upload, h]
  · have h : ¬ (padStart (toHexString len) 8 '0').length ≠ 8 := by
      rw [xferHex_length_ne_8]
      omega
    refine ⟨?_, ⟨.bootloader "FAIL" "Unexpected response to download command", ?_⟩⟩ <;>
      simp [upload, h, hnone]
  · have h : ¬ (padStart (toHexString len) 8 '0').length ≠ 8 := by
      rw [xferHex_length_ne_8]
      omega
    refine ⟨?_, ⟨.bootloader "FAIL" "Bootloader wants a different byte count", ?_⟩⟩ <;>
      simp [upload, h, hds, hne]

/-- Witness for C7: an oversized 2^32-byte payload is rejected with no
events, and a 4-byte payload whose download response echoes a wrong size
gets only the download command and an error. -/
theorem upload_spec_witness :
    upload (2 ^ 32) (CommandResponse.mk [] none) (.ok ()) =
      ([], .error (.bootloader "FAIL" "Transfer size overflow")) ∧
    (upload 4 (CommandResponse.mk [] (some ("05").data)) (.ok ())).1 =
      [UploadEvent.command ("download:".data ++ padStart (toHexString 4) 8 '0')] ∧
    ∃ e, (upload 4 (CommandResponse.mk [] (some ("05").data)) (.ok ())).2 = .error e :=
  ⟨(upload_spec (2 ^ 32) (CommandResponse.mk [] none) (.ok ())).1 (by norm_num),
    (upload_spec 4 (CommandResponse.mk [] (some ("05").data)) (.ok ())).2.2
      (by norm_num) ("05").data rfl (by decide)⟩

/-! ## Timed progress (`runWithTimedProgress`, src/sparse.ts:402-430) -/

/-- The fractions reported by the ticking loop: one
`(now - startTime) / duration` per iteration, at observed clock values
`samples`. Clock times are modelled as rationals. -/
def tickFractions (startTime duration : ℚ) (samples : List ℚ) : List ℚ :=
  samples.map (fun now => (now - startTime) / duration)

/-- All `onProgress` fractions emitted by one `runWithTimedProgress` call in
order: `0.0` before the work starts, the ticking loop's fractions, and a
final `1.0` once the work promise has resolved. -/
def runWithTimedProgressEmissions (startTime duration : ℚ)
    (samples : List ℚ) : List ℚ :=
  0 :: tickFractions startTime duration samples ++ [1]

/-- The clock values a run of the do-while ticking loop can observe: the loop
body runs at least once; `new Date().getTime()` readings are non-decreasing
and not before `startTime`; and the loop only re-runs while the previous
reading was below `targetTime = startTime + duration` (and the stop flag was
unset), so every sample except possibly the last is below the target. The
final sample is unconstrained: it is taken after an animation-frame wait and
may land at or past the target. -/
def ValidTickSamples (startTime duration : ℚ) (samples : List ℚ) : Prop :=
  samples ≠ [] ∧ samples.Chain' (· ≤ ·) ∧ (∀ t ∈ samples, startTime ≤ t) ∧
    ∀ t ∈ samples.dropLast, t < startTime + duration

/-- Counterexample for C9: a valid run (start 0, duration 1, ticks observed
at times 0 and — after a slow animation frame crossing the target — 2)
emits the fraction 2: the loop is a do-while that emits before re-checking
`now < targetTime`, so its last fraction is not capped below 1.0, an
emission exceeds 1, and the emitted sequence [0, 0, 2, 1] ends with a
decrease. -/
theorem runWithTimedProgress_cex :
    ValidTickSamples 0 1 [0, 2] ∧
    runWithTimedProgressEmissions 0 1 [0, 2] = [0, 0, 2, 1] ∧
    ¬ ((2 : ℚ) ≤ 1) := by
  refine ⟨⟨by simp, ?_, ?_, ?_⟩, ?_, by norm_num⟩
  · simp only [List.chain'_cons, List.chain'_singleton, and_true]
    norm_num
  · intro t ht
    rcases List.mem_cons.mp ht with rfl | ht
    · norm_num
    · rcases List.mem_singleton.mp ht with rfl
      norm_num
  · intro t ht
    simp only [List.dropLast] at ht
    rcases List.mem_singleton.mp ht with rfl
    norm_num
  · simp [runWithTimedProgressEmissions, tickFractions]

/-- C9 as amended: 0.0 is emitted first and 1.0 last; every emitted fraction
is non-negative; every ticking-loop fraction except possibly the last is
`elapsed/duration` below 1.0 (the last sample is taken after the frame wait
and can reach or exceed 1.0, so fractions are not all within [0,1]); and the
emissions up to and including the last tick are monotonically non-decreasing
(the final 1.0 can be a decrease after an overshooting last tick). -/
theorem runWithTimedProgress_amended (startTime duration : ℚ)
    (samples : List ℚ) (hdur : 0 < duration)
    (hv : ValidTickSamples startTime duration samples) :
    (runWithTimedProgressEmissions startTime duration samples).head? = some 0 ∧
    (runWithTimedProgressEmissions startTime duration samples).getLast? = some 1 ∧
    (∀ x ∈ runWithTimedProgressEmissions startTime duration samples, 0 ≤ x) ∧
    (∀ x ∈ (tickFractions startTime duration samples).dropLast, x < 1) ∧
    List.Chain' (· ≤ ·) (0 :: tickFractions startTime duration samples) := by
  obtain ⟨hne, hchain, hstart, htarget⟩ := hv
  have hnonnegTick : ∀ x ∈ tickFractions startTime duration samples, 0 ≤ x := by
    intro x hx
    obtain ⟨t, ht, rfl⟩ := List.mem_map.mp hx
    exact div_nonneg (sub_nonneg.mpr (hstart t ht)) hdur.le
  refine ⟨rfl, ?_, ?_, ?_, ?_⟩
  · show (0 :: (tickFractions startTime duration samples ++ [1])).getLast? = some 1
    rw [← List.cons_append, List.getLast?_concat]
  · intro x hx
    simp only [runWithTimedProgressEmissions, List.mem_cons, List.mem_append,
      List.mem_singleton] at hx
    rcases hx with (rfl | hx) | (rfl | h)
    · exact le_refl 0
    · exact hnonnegTick x hx
    · norm_num
    · simp at h
  · intro x hx
    rw [tickFractions, ← List.map_dropLast] at hx
    obtain ⟨t, ht, rfl⟩ := List.mem_map.mp hx
    have hlt := htarget t ht
    rw [div_lt_one hdur]
    linarith
  · rw [List.chain'_cons']
    refine ⟨fun y hy => ?_, ?_⟩
    · exact hnonnegTick y (List.mem_of_mem_head? hy)
    · exact List.chain'_map_of_chain' _
        (fun a b hab => (div_le_div_iff_of_pos_right hdur).mpr (by linarith)) hchain

/-- Witness for the amended C9 at start 0, duration 1, one tick at time 0. -/
theorem runWithTimedProgress_amended_witness :
    (0 : ℚ) < 1 ∧ ValidTickSamples 0 1 [0] ∧
    ((runWithTimedProgressEmissions 0 1 [0]).head? = some 0 ∧
      (runWithTimedProgressEmissions 0 1 [0]).getLast? = some 1 ∧
      (∀ x ∈ runWithTimedProgressEmissions 0 1 [0], 0 ≤ x) ∧
      (∀ x ∈ (tickFractions 0 1 [0]).dropLast, x < 1) ∧
      List.Chain' (· ≤ ·) (0 :: tickFractions 0 1 [0])) :=
  ⟨by norm_num, ⟨by simp, by simp, by simp, by simp⟩,
    runWithTimedProgress_amended 0 1 [0] (by norm_num)
      ⟨by simp, by simp, by simp, by simp⟩⟩

/-! ## Factory flash requirement checker (src/index.ts) -/

/-- JS `androidInfo.replace("\r", "")` (src/index.ts:169): JS `replace` with a
string pattern removes only the first occurrence. -/
def removeFirst (c : Char) : List Char → List Char
  | [] => []
  | x :: xs => if x = c then xs else x :: removeFirst c xs

/-- JS `String.prototype.split(sep)` for a single-character separator. -/
def jsSplit (sep : Char) : List Char → List (List Char)
  | [] => [[]]
  | c :: rest =>
    match jsSplit sep rest with
    | [] => [[c]]
    | h :: t => if c = sep then [] :: h :: t else (c :: h) :: t

/-- The characters matched by the regex class `\s` that occur in text files
(the exotic Unicode spaces are not modelled). -/
def isJsSpace (c : Char) : Bool :=
  c = ' ' ∨ c = '\t' ∨ c = '\n' ∨ c = '\r' ∨ c = '\x0b' ∨ c = '\x0c'

/-- No line terminators: the regex `.` matches neither `\n` nor `\r`
(` `/` ` are not modelled). -/
def noLineTerm (l : List Char) : Bool := l.all (fun c => c ≠ '\n' ∧ c ≠ '\r')

/-- Index of the first occurrence of `c`. -/
def firstIdxOf (c : Char) : List Char → Option Nat
  | [] => none
  | x :: xs => if x = c then some 0 else (firstIdxOf c xs).map (· + 1)

/-- Capture-group extraction for the regex `^require\s+(.+?)=(.+)$` once the
whitespace run length `w` and the first `=` index `e` in `rest` are known:
the value `(.+)` is everything after the `=` (nonempty, no line terminator);
the lazy key `(.+?)` runs from the end of the whitespace to the `=`; when the
`=` directly follows the whitespace run the lazy group backtracks and
captures the run's last whitespace character instead. -/
def parseRequireGroups (rest : List Char) (w e : Nat) :
    Option (List Char × List Char) :=
  if (rest.drop (e + 1)).isEmpty ∨ ¬ noLineTerm (rest.drop (e + 1)) then none
  else if w < e then
    if noLineTerm ((rest.drop w).take (e - w)) then
      some ((rest.drop w).take (e - w), rest.drop (e + 1))
    else none
  else
    if 2 ≤ w ∧ noLineTerm ((rest.drop (w - 1)).take 1) then
      some ((rest.drop (w - 1)).take 1, rest.drop (e + 1))
    else none

/-- After the literal `require`: a nonempty maximal-munch `\s+` run, then an
`=` must exist for the lazy group to stop at. -/
def parseRequireAfter (rest : List Char) : Option (List Char × List Char) :=
  if (rest.takeWhile isJsSpace).length = 0 then none
  else
    match firstIdxOf '=' rest with
    | none => none
    | some e => parseRequireGroups rest ((rest.takeWhile isJsSpace).length) e

/-- The line match `line.match(/^require\s+(.+?)=(.+)$/)` (src/index.ts:170),
returning the two capture groups. -/
def parseRequireLine (line : List Char) : Option (List Char × List Char) :=
  if line.take 7 = ("require").data then parseRequireAfter (line.drop 7)
  else none

/-- JS `BOOT_CRITICAL_IMAGES` (src/index.ts:65). -/
def BOOT_CRITICAL_IMAGES : List (List Char) :=
  [("boot").data, ("dt").data, ("dtbo").data, ("init_boot").data,
   ("pvmfw").data, ("recovery").data, ("vbmeta_system").data,
   ("vbmeta_vendor").data, ("vbmeta").data, ("vendor_boot").data,
   ("vendor_kernel_boot").data]

/-- JS `SYSTEM_IMAGES` (src/index.ts:80). -/
def SYSTEM_IMAGES : List (List Char) :=
  [("odm").data, ("odm_dlkm").data, ("product").data, ("system_ext").data,
   ("system").data, ("vendor_dlkm").data, ("vendor").data]

/-- The body of `checkRequirements`'s per-line loop (src/index.ts:170-219).
`getVar` models `device.getVariable`: the variable's value, or `none` when
the device reports the variable absent (null). Lines that do not match the
require regex are skipped. `board` is aliased to `product`; the
`partition-exists` pseudo-variable checks `has-slot:<value>` and the known
image lists; ordinary keys pass iff the live value is among the
pipe-separated alternatives. -/
def checkLine (getVar : List Char → Option (List Char)) (line : List Char) :
    Except FbFailure Unit :=
  match parseRequireLine line with
  | none => .ok ()
  | some (key, expectValue) =>
    let varName := if key = ("board").data then ("product").data else key
    let expectValues := jsSplit '|' expectValue
    if varName = ("partition-exists").data then
      match getVar (("has-slot:").data ++ expectValue) with
      | some hasSlot =>
        if hasSlot ≠ ("yes").data ∧ hasSlot ≠ ("no").data then
          .error (.bootloader "FAIL" "requirement failed, device lacks partition")
        else if ¬ (BOOT_CRITICAL_IMAGES.contains expectValue ∨
            SYSTEM_IMAGES.contains expectValue) then
          .error (.bootloader "FAIL" "requirement failed, unrecognized partition")
        else
          .ok ()
      | none => .error (.bootloader "FAIL" "requirement failed, device lacks partition")
    else
      match getVar varName with
      | some realValue =>
        if expectValues.contains realValue then
          .ok ()
        else
          .error (.bootloader "FAIL" "requirement failed")
      | none => .error (.bootloader "FAIL" "requirement failed")

/-- The `for` loop of `checkRequirements`: lines are checked in order and the
first thrown error aborts the remaining checks (and with them the whole
factory flash). -/
def checkLines (getVar : List Char → Option (List Char)) :
    List (List Char) → Except FbFailure Unit
  | [] => .ok ()
  | line :: rest =>
    match checkLine getVar line with
    | .ok _ => checkLines getVar rest
    | .error e => .error e

/-- JS `checkRequirements` (src/index.ts:167): strip the first `\r`, split on
newlines, check every line. -/
def checkRequirements (getVar : List Char → Option (List Char))
    (androidInfo : List Char) : Except FbFailure Unit :=
  checkLines getVar (jsSplit '\n' (removeFirst '\r' androidInfo))

/-! ### C8: requirement lines -/

theorem removeFirst_of_not_mem (c : Char) (l : List Char) (h : c ∉ l) :
    removeFirst c l = l := by
  induction l with
  | nil => rfl
  | cons x xs ih =>
    rw [removeFirst]
    rw [if_neg (by rintro rfl; exact h (List.mem_cons_self x xs))]
    rw [ih (fun hc => h (List.mem_cons_of_mem x hc))]

theorem jsSplit_of_not_mem (sep : Char) (l : List Char) (h : sep ∉ l) :
    jsSplit sep l = [l] := by
  induction l with
  | nil => rfl
  | cons x xs ih =>
    rw [jsSplit, ih (fun hc => h (List.mem_cons_of_mem x hc))]
    show (if x = sep then [[], xs] else [x :: xs]) = [x :: xs]
    rw [if_neg (by rintro rfl; exact h (List.mem_cons_self x xs))]

theorem checkLines_singleton (getVar : List Char → Option (List Char))
    (l : List Char) : checkLines getVar [l] = checkLine getVar l := by
  rw [checkLines]
  cases hc : checkLine getVar l with
  | ok u => cases u; rw [checkLines]
  | error e => rfl

theorem firstIdxOf_append (c : Char) (l r : List Char) (h : c ∉ l) :
    firstIdxOf c (l ++ c :: r) = some l.length := by
  induction l with
  | nil => simp [firstIdxOf]
  | cons x xs ih =>
    rw [List.cons_append, firstIdxOf]
    rw [if_neg (by rintro rfl; exact h (List.mem_cons_self x xs))]
    rw [ih (fun hc => h (List.mem_cons_of_mem x hc))]
    rfl

/-- On a well-formed `require <key>=<value>` line — nonempty key without
whitespace, `=`, or line terminators; nonempty value without line
terminators — the regex match returns exactly the key and value. -/
theorem parseRequireLine_wellformed (key value : List Char)
    (hkey0 : key ≠ [])
    (hkeyc : ∀ c ∈ key, isJsSpace c = false ∧ c ≠ '=' ∧ c ≠ '\n' ∧ c ≠ '\r')
    (hval0 : value ≠ [])
    (hvalc : ∀ c ∈ value, c ≠ '\n' ∧ c ≠ '\r') :
    parseRequireLine (("require ").data ++ key ++ '=' :: value) = some (key, value) := by
  obtain ⟨k0, k', rfl⟩ := List.exists_cons_of_ne_nil hkey0
  have hline : ("require ").data ++ (k0 :: k') ++ '=' :: value =
      ("require").data ++ (' ' :: ((k0 :: k') ++ '=' :: value)) := rfl
  have hlen7 : (("require").data).length = 7 := rfl
  have htake : (("require").data ++ (' ' :: ((k0 :: k') ++ '=' :: value))).take 7 =
      ("require").data := by
    rw [← hlen7]
    exact List.take_left _ _
  have hdrop : (("require").data ++ (' ' :: ((k0 :: k') ++ '=' :: value))).drop 7 =
      ' ' :: ((k0 :: k') ++ '=' :: value) := by
    rw [← hlen7]
    exact List.drop_left _ _
  have hk0 : isJsSpace k0 = false := (hkeyc k0 (List.mem_cons_self k0 k')).1
  have htw : ((' ' :: ((k0 :: k') ++ '=' :: value)).takeWhile isJsSpace).length = 1 := by
    rw [List.takeWhile_cons, if_pos (by decide)]
    rw [List.cons_append, List.takeWhile_cons, if_neg (by simp [hk0])]
    rfl
  have hsplit : ' ' :: ((k0 :: k') ++ '=' :: value) =
      (' ' :: k0 :: k') ++ '=' :: value := rfl
  have hnotin : '=' ∉ (' ' :: k0 :: k') := by
    intro hmem
    rcases List.mem_cons.mp hmem with h | hmem
    · exact absurd h.symm (by decide)
    · exact ((hkeyc _ hmem).2.1 rfl).elim
  have hfind : firstIdxOf '=' (' ' :: ((k0 :: k') ++ '=' :: value)) =
      some (k'.length + 2) := by
    rw [hsplit, firstIdxOf_append '=' (' ' :: k0 :: k') value hnotin]
    simp
  have hvdrop : (' ' :: ((k0 :: k') ++ '=' :: value)).drop (k'.length + 2 + 1) =
      value := by
    have h1 : ' ' :: ((k0 :: k') ++ '=' :: value) =
        (' ' :: k0 :: k' ++ ['=']) ++ value := by simp
    have h2 : (' ' :: k0 :: k' ++ ['=']).length = k'.length + 2 + 1 := by simp
    rw [h1, ← h2]
    exact List.drop_left _ _
  obtain ⟨v0, v', rfl⟩ := List.exists_cons_of_ne_nil hval0
  have hnlv : noLineTerm (v0 :: v') = true := by
    simp only [noLineTerm, List.all_eq_true, decide_eq_true_eq]
    exact fun c hc => ⟨(hvalc c hc).1, (hvalc c hc).2⟩
  have hnlk : noLineTerm (k0 :: k') = true := by
    simp only [noLineTerm, List.all_eq_true, decide_eq_true_eq]
    exact fun c hc => ⟨(hkeyc c hc).2.2.1, (hkeyc c hc).2.2.2⟩
  have hkdrop : (' ' :: ((k0 :: k') ++ '=' :: (v0 :: v'))).drop 1 =
      (k0 :: k') ++ '=' :: (v0 :: v') := rfl
  have hktake : ((k0 :: k') ++ '=' :: (v0 :: v')).take (k'.length + 2 - 1) =
      k0 :: k' := by
    have h2 : (k0 :: k').length = k'.length + 2 - 1 := by simp
    rw [← h2]
    exact List.take_left _ _
  rw [hline]
  unfold parseRequireLine
  rw [htake, if_pos rfl, hdrop]
  unfold parseRequireAfter
  rw [htw, if_neg (by omega), hfind]
  show parseRequireGroups (' ' :: ((k0 :: k') ++ '=' :: (v0 :: v'))) 1
      (k'.length + 2) = some (k0 :: k', v0 :: v')
  unfold parseRequireGroups
  rw [hvdrop]
  rw [if_neg (by simp [hnlv])]
  rw [if_pos (by omega : (1 : Nat) < k'.length + 2)]
  rw [hkdrop, hktake, if_pos (by simp [hnlk])]

/-- C8: for every well-formed requirement line `require <key>=<value>`,
`checkRequirements` consults the live device variable `<key>` — with `board`
aliased to `product`, so a `board` requirement is checked against `product`
and never against a `board` variable — and passes exactly when the value is
among the pipe-separated alternatives; on a mismatch (or an absent variable)
it throws, aborting the factory flash. -/
theorem checkRequirements_spec (getVar : List Char → Option (List Char))
    (key value : List Char)
    (hkey0 : key ≠ [])
    (hkeyc : ∀ c ∈ key, isJsSpace c = false ∧ c ≠ '=' ∧ c ≠ '\n' ∧ c ≠ '\r')
    (hval0 : value ≠ [])
    (hvalc : ∀ c ∈ value, c ≠ '\n' ∧ c ≠ '\r')
    (hpe : key ≠ ("partition-exists").data) :
    ((getVar (if key = ("board").data then ("product").data else key)).elim False
        (fun rv => rv ∈ jsSplit '|' value) →
      checkRequirements getVar (("require ").data ++ key ++ '=' :: value) = .ok ()) ∧
    (¬ (getVar (if key = ("board").data then ("product").data else key)).elim False
        (fun rv => rv ∈ jsSplit '|' value) →
      ∃ e, checkRequirements getVar (("require ").data ++ key ++ '=' :: value) =
        .error e) := by
  have hnoCR : '\r' ∉ ("require ").data ++ key ++ '=' :: value := by
    intro hmem
    rcases List.mem_append.mp hmem with h | h
    · rcases List.mem_append.mp h with h | h
      · exact absurd h (by decide)
      · exact (hkeyc _ h).2.2.2 rfl
    · rcases List.mem_cons.mp h with h | h
      · exact absurd h (by decide)
      · exact (hvalc _ h).2 rfl
  have hnoLF : '\n' ∉ ("require ").data ++ key ++ '=' :: value := by
    intro hmem
    rcases List.mem_append.mp hmem with h | h
    · rcases List.mem_append.mp h with h | h
      · exact absurd h (by decide)
      · exact (hkeyc _ h).2.2.1 rfl
    · rcases List.mem_cons.mp h with h | h
      · exact absurd h (by decide)
      · exact (hvalc _ h).1 rfl
  have hcr : checkRequirements getVar (("require ").data ++ key ++ '=' :: value) =
      checkLine getVar (("require ").data ++ key ++ '=' :: value) := by
    rw [checkRequirements, removeFirst_of_not_mem _ _ hnoCR,
      jsSplit_of_not_mem _ _ hnoLF, checkLines_singleton]
  have hparse := parseRequireLine_wellformed key value hkey0 hkeyc hval0 hvalc
  have hvar : (if key = ("board").data then ("product").data else key) ≠
      ("partition-exists").data := by
    by_cases hb : key = ("board").data
    · rw [if_pos hb]
      decide
    · rw [if_neg hb]
      exact hpe
  rw [hcr]
  rw [checkLine, hparse]
  constructor
  · intro hpass
    cases hgv : getVar (if key = ("board").data then ("product").data else key) with
    | none => rw [hgv] at hpass; exact absurd hpass (by simp)
    | some rv =>
      rw [hgv] at hpass
      simp only [Option.elim] at hpass
      simp only [if_neg hvar, hgv]
      rw [if_pos (by simpa [List.contains, List.elem_eq_mem] using hpass)]
  · intro hfail
    cases hgv : getVar (if key = ("board").data then ("product").data else key) with
    | none =>
      refine ⟨.bootloader "FAIL" "requirement failed", ?_⟩
      simp only [if_neg hvar, hgv]
    | some rv =>
      rw [hgv] at hfail
      simp only [Option.elim] at hfail
      refine ⟨.bootloader "FAIL" "requirement failed", ?_⟩
      simp only [if_neg hvar, hgv]
      rw [if_neg (by simpa [List.contains, List.elem_eq_mem] using hfail)]

/-- A concrete device-variable table for the C8 witness: only `product` is
defined (in particular there is no `board` variable). -/
def c8GetVar : List Char → Option (List Char) :=
  fun v => if v = ("product").data then some ("redfin").data else none

/-- Witness for C8: `require board=redfin|bramble` passes against a device
that defines `product=redfin` and has no `board` variable at all. -/
theorem checkRequirements_spec_witness :
    (c8GetVar (if ("board").data = ("board").data then ("product").data
        else ("board").data)).elim
      False (fun rv => rv ∈ jsSplit '|' ("redfin|bramble").data) ∧
    checkRequirements c8GetVar
      (("require ").data ++ ("board").data ++ '=' :: ("redfin|bramble").data) =
      .ok () :=
  ⟨show ("redfin").data ∈ jsSplit '|' ("redfin|bramble").data by decide,
    (checkRequirements_spec c8GetVar ("board").data ("redfin|bramble").data
      (by decide) (by decide) (by decide) (by decide) (by decide)).1
      (show ("redfin").data ∈ jsSplit '|' ("redfin|bramble").data by decide)⟩

end FastbootJs
